import Mathlib

/-!
Shallow embedding of the InfiniteMemoryMCP memory engine.

Collections are modelled as Lean lists in insertion order (matching the
mock store, whose `find` scans `self.documents` in order and whose
`insert_one` appends).  Timestamps are integers, similarity scores are
rationals, and the square root used by `np.linalg.norm` is kept as an
abstract parameter `sqrt : Rat -> Rat` so that every definition stays
executable.  Fallible model calls are `Option`-valued, and the embedding
worker / callback machinery is modelled at its synchronous settling
points: each definition below embeds the correspondingly named Python
function from `src/infinite_memory_mcp`.
-/

namespace InfiniteMemory

/-- ConversationMemory dataclass (documents of `conversation_history`). -/
structure ConversationMemory where
  id : String
  conversation_id : String
  speaker : String
  text : String
  scope : String
  tags : List String
  timestamp : Int
deriving DecidableEq, Repr

/-- MemoryIndexItem dataclass (documents of `memory_index`). -/
structure MemoryIndexItem where
  source_collection : String
  source_id : String
  scope : String
  embedding : List Rat
deriving DecidableEq, Repr

/-- The two collections the claims touch, in insertion order. -/
structure DB where
  conversation_history : List ConversationMemory
  memory_index : List MemoryIndexItem
deriving DecidableEq, Repr

/-- Python truthiness of an optional string (`None` and `""` are falsy). -/
def truthyStr : Option String → Bool
  | none => false
  | some s => !(s == "")

/-- Scope filter of the Mongo queries: `if scope: query["scope"] = scope`. -/
def scopeFilter (scope : Option String) (s : String) : Bool :=
  if truthyStr scope then s == scope.getD "" else true

/-! ## Embedding service -/

/-- Componentwise dot product, `np.dot` on equal-length vectors. -/
def dotProduct : List Rat → List Rat → Rat
  | [], _ => 0
  | x :: xs, ys =>
    match ys with
    | [] => 0
    | y :: ys2 => x * y + dotProduct xs ys2

/-- Squared Euclidean norm; `np.linalg.norm v = sqrt (normSq v)`. -/
def normSq (v : List Rat) : Rat := dotProduct v v

/-- EmbeddingService.compute_similarity: cosine similarity with the
zero-norm guard, the square root left abstract. -/
def compute_similarity (sqrt : Rat → Rat) (v1 v2 : List Rat) : Rat :=
  let norm1 := sqrt (normSq v1)
  let norm2 := sqrt (normSq v2)
  if norm1 = 0 ∨ norm2 = 0 then 0
  else dotProduct v1 v2 / (norm1 * norm2)

/-- EmbeddingService.compute_similarities. -/
def compute_similarities (sqrt : Rat → Rat) (q : List Rat)
    (cands : List (List Rat)) : List Rat :=
  cands.map (compute_similarity sqrt q)

/-- Stable descending sort key on `(payload, score)` pairs, matching
Python `sort(key=lambda x: x[1], reverse=True)`. -/
def scoreGE {α : Type} (p q : α × Rat) : Prop := q.2 ≤ p.2

instance {α : Type} : DecidableRel (scoreGE (α := α)) :=
  fun p q => inferInstanceAs (Decidable (q.2 ≤ p.2))

/-- EmbeddingService.find_most_similar. -/
def find_most_similar (sqrt : Rat → Rat) (q : List Rat)
    (cands : List (List Rat)) (top_k : Nat) (threshold : Rat) : List Nat :=
  if cands.isEmpty then []
  else
    let sims := compute_similarities sqrt q cands
    let indexed := sims.enum
    let filtered := indexed.filter (fun p => decide (threshold ≤ p.2))
    let sorted := filtered.insertionSort scoreGE
    (sorted.take top_k).map (fun p => p.1)

/-- LRU cache state: association list, oldest entry first, most recently
used entry last (the Python dict insertion order). -/
abbrev Cache := List (String × List Rat)

/-- Lookup `text in self.embedding_cache`. -/
def cache_lookup (c : Cache) (t : String) : Option (List Rat) :=
  (c.find? (fun p => p.1 == t)).map (fun p => p.2)

/-- Remove the entry for a key (`self.embedding_cache.pop(text)`). -/
def cache_remove (c : Cache) (t : String) : Cache :=
  c.eraseP (fun p => p.1 == t)

/-- The insert-with-eviction block of `generate_embedding`: evict the
oldest entry when full, then append; `none` models the `StopIteration`
raised by `next(iter({}))` on an empty full cache (caught by the outer
`except`, which then returns a zero vector). -/
def cache_insert_evict (cache_size : Nat) (c : Cache) (t : String)
    (v : List Rat) : Option Cache :=
  if cache_size ≤ c.length then
    match c with
    | [] => none
    | _ :: rest => some (rest ++ [(t, v)])
  else some (c ++ [(t, v)])

/-- EmbeddingService.generate_embedding (synchronous path).  The model
call `_generate_embedding_internal` is the parameter `model`; `none`
models it raising.  Returns the vector and the updated cache. -/
def generate_embedding (model : String → Option (List Rat))
    (embedding_size cache_size : Nat) (c : Cache) (text : String) :
    List Rat × Cache :=
  if text == "" then (List.replicate embedding_size 0, c)
  else
    match cache_lookup c text with
    | some v => (v, cache_remove c text ++ [(text, v)])
    | none =>
      match model text with
      | none => (List.replicate embedding_size 0, c)
      | some v =>
        match cache_insert_evict cache_size c text v with
        | none => (List.replicate embedding_size 0, c)
        | some c2 => (v, c2)

/-! ## Memory repository: retrieval -/

/-- MemoryRepository.get_conversations_by_text_search; the
case-insensitive `$regex` match on `text` is the abstract parameter
`textMatch query text`. -/
def get_conversations_by_text_search (textMatch : String → String → Bool)
    (db : DB) (search_text : String) (scope : Option String) :
    List ConversationMemory :=
  db.conversation_history.filter
    (fun d => textMatch search_text d.text && scopeFilter scope d.scope)

/-- MemoryRepository.get_conversations_by_semantic_search; the query
embedding produced by `embedding_service.generate_embedding` is the
abstract parameter `embGen`. -/
def get_conversations_by_semantic_search (sqrt : Rat → Rat)
    (embGen : String → List Rat) (db : DB) (query_text : String)
    (scope : Option String) (top_k : Nat) (similarity_threshold : Rat) :
    List (ConversationMemory × Rat) :=
  let query_embedding := embGen query_text
  let index_items := db.memory_index.filter
    (fun e => e.source_collection == "conversation_history" &&
      scopeFilter scope e.scope)
  if index_items.isEmpty then []
  else
    let candidate_embeddings := index_items.map (fun e => e.embedding)
    let source_ids := index_items.map (fun e => e.source_id)
    let most_similar := find_most_similar sqrt query_embedding
      candidate_embeddings top_k similarity_threshold
    if most_similar.isEmpty then []
    else
      let result_items := most_similar.filterMap (fun idx =>
        (db.conversation_history.find?
            (fun d => d.id == source_ids.getD idx "")).map
          (fun doc => (doc, compute_similarity sqrt query_embedding
            (candidate_embeddings.getD idx []))))
      result_items.insertionSort scoreGE

/-- The deduplication loop of `perform_hybrid_search`: keep the first
occurrence of each document id. -/
def dedupFirst (seen : List String) :
    List (ConversationMemory × Rat) → List (ConversationMemory × Rat)
  | [] => []
  | p :: ps =>
    if p.1.id ∈ seen then dedupFirst seen ps
    else p :: dedupFirst (p.1.id :: seen) ps

/-- MemoryRepository.perform_hybrid_search. -/
def perform_hybrid_search (sqrt : Rat → Rat) (embGen : String → List Rat)
    (textMatch : String → String → Bool) (db : DB) (query_text : String)
    (scope : Option String) (top_k : Nat) (similarity_threshold : Rat) :
    List (ConversationMemory × Rat) :=
  let semantic_results := get_conversations_by_semantic_search sqrt embGen
    db query_text scope top_k similarity_threshold
  let keyword_results := get_conversations_by_text_search textMatch db
    query_text scope
  let keyword_result_tuples := keyword_results.map
    (fun m => (m, (1 : Rat)))
  let keyword_ids := keyword_result_tuples.map (fun k => k.1.id)
  let combined_results := keyword_result_tuples ++
    semantic_results.filter (fun r => decide (r.1.id ∉ keyword_ids))
  let unique_results := dedupFirst [] combined_results
  (unique_results.insertionSort scoreGE).take top_k

/-- Hybrid search as the spec words it (amended): the union of the
lexical results (score 1.0) and the semantic results, deduplicated by
document id preferring the lexical entry, stably sorted by score
descending, truncated to top-k; on equal scores the combined order
(lexical results in store order, then semantic results) is kept. -/
def hybrid_search_spec (sqrt : Rat → Rat) (embGen : String → List Rat)
    (textMatch : String → String → Bool) (db : DB) (query_text : String)
    (scope : Option String) (top_k : Nat) (similarity_threshold : Rat) :
    List (ConversationMemory × Rat) :=
  let lexical := (get_conversations_by_text_search textMatch db query_text
    scope).map (fun m => (m, (1 : Rat)))
  let semantic := get_conversations_by_semantic_search sqrt embGen db
    query_text scope top_k similarity_threshold
  ((dedupFirst [] (lexical ++ semantic)).insertionSort scoreGE).take top_k

/-! ## Memory repository: deletion -/

/-- MemoryRepository.delete_memory: `delete_one` on the document, then
`_delete_memory_embedding` (`delete_one` on the index row). -/
def repo_delete_memory (db : DB) (memory_id : String) : Bool × DB :=
  let deleted := db.conversation_history.any (fun d => d.id == memory_id)
  (deleted,
    { conversation_history :=
        db.conversation_history.eraseP (fun d => d.id == memory_id),
      memory_index :=
        db.memory_index.eraseP (fun e => e.source_id == memory_id) })

/-- MemoryRepository.delete_memories_by_scope: `delete_many` on both the
documents and the index rows with that scope. -/
def repo_delete_memories_by_scope (db : DB) (scope : String) : Nat × DB :=
  (db.conversation_history.countP (fun d => d.scope == scope),
    { conversation_history :=
        db.conversation_history.filter (fun d => !(d.scope == scope)),
      memory_index :=
        db.memory_index.filter (fun e => !(e.scope == scope)) })

/-- MemoryRepository.delete_memories_by_tag: `delete_many` on the tagged
documents, then one `delete_one` per collected id on the index. -/
def repo_delete_memories_by_tag (db : DB) (tag : String) : Nat × DB :=
  let memory_ids := (db.conversation_history.filter
    (fun d => d.tags.contains tag)).map (fun d => d.id)
  (db.conversation_history.countP (fun d => d.tags.contains tag),
    { conversation_history :=
        db.conversation_history.filter (fun d => !(d.tags.contains tag)),
      memory_index := memory_ids.foldl
        (fun idx i => idx.eraseP (fun e => e.source_id == i))
        db.memory_index })

/-! ## Circuit breaker (mcp_server.CircuitBreaker) -/

/-- CircuitBreaker state: the three per-command dictionaries together
with the two configuration values; dictionary defaults (`get(c, 0)` /
`get(c, False)`) are the total functions' values. -/
structure CircuitBreaker where
  failure_threshold : Nat
  reset_timeout : Rat
  failure_count : String → Nat
  circuit_open : String → Bool
  last_failure_time : String → Rat

/-- CircuitBreaker.__init__ with the given configuration. -/
def CircuitBreaker.init (threshold : Nat) (timeout : Rat) :
    CircuitBreaker :=
  { failure_threshold := threshold, reset_timeout := timeout,
    failure_count := fun _ => 0, circuit_open := fun _ => false,
    last_failure_time := fun _ => 0 }

/-- CircuitBreaker.record_success. -/
def record_success (cb : CircuitBreaker) (command : String) :
    CircuitBreaker :=
  { cb with
    failure_count := fun c => if c = command then 0 else cb.failure_count c,
    circuit_open := fun c => if c = command then false else cb.circuit_open c }

/-- CircuitBreaker.record_failure at wall-clock time `now`. -/
def record_failure (cb : CircuitBreaker) (command : String) (now : Rat) :
    CircuitBreaker :=
  let count := cb.failure_count command + 1
  { cb with
    failure_count := fun c => if c = command then count else cb.failure_count c,
    last_failure_time :=
      fun c => if c = command then now else cb.last_failure_time c,
    circuit_open := fun c =>
      if c = command then
        (cb.circuit_open command || decide (cb.failure_threshold ≤ count))
      else cb.circuit_open c }

/-- CircuitBreaker.is_open probed at wall-clock time `now`: returns the
answer and the (possibly reset) state. -/
def is_open (cb : CircuitBreaker) (command : String) (now : Rat) :
    Bool × CircuitBreaker :=
  if cb.circuit_open command then
    if cb.reset_timeout < now - cb.last_failure_time command then
      (false,
        { cb with
          circuit_open :=
            fun c => if c = command then false else cb.circuit_open c,
          failure_count :=
            fun c => if c = command then 0 else cb.failure_count c })
    else (true, cb)
  else (false, cb)

/-! ## Memory service: delete dispatch, update, batch, history -/

/-- Wire envelope of a delete operation. -/
inductive DeleteResponse where
  | ok (deleted_count : Nat) (scope : Option String)
  | err (message : String)
deriving DecidableEq, Repr

/-- MemoryService.delete_memory: criterion dispatch with Python
truthiness on each optional argument. -/
def service_delete_memory (db : DB)
    (memory_id scope tag query : Option String) : DeleteResponse × DB :=
  let scopeEcho := if truthyStr scope then scope else none
  if truthyStr memory_id then
    let r := repo_delete_memory db (memory_id.getD "")
    (DeleteResponse.ok (if r.1 then 1 else 0) scopeEcho, r.2)
  else if truthyStr scope then
    let r := repo_delete_memories_by_scope db (scope.getD "")
    (DeleteResponse.ok r.1 scopeEcho, r.2)
  else if truthyStr tag then
    let r := repo_delete_memories_by_tag db (tag.getD "")
    (DeleteResponse.ok r.1 scopeEcho, r.2)
  else if truthyStr query then
    (DeleteResponse.err "Delete by query not implemented yet", db)
  else (DeleteResponse.err "No deletion criteria provided", db)

/-- commands.handle_delete_memory: reject when no criterion is truthy,
otherwise forward to the service. -/
def handle_delete_memory (db : DB)
    (memory_id scope tag query : Option String) : DeleteResponse × DB :=
  if !(truthyStr memory_id || truthyStr scope || truthyStr tag ||
      truthyStr query) then
    (DeleteResponse.err "At least one deletion criterion is required", db)
  else service_delete_memory db memory_id scope tag query

/-- Replace the first element satisfying `p` (Mongo `update_one` with a
full-document `$set`). -/
def replaceFirst {α : Type} (p : α → Bool) (new : α) :
    List α → List α
  | [] => []
  | x :: xs => if p x then new :: xs else x :: replaceFirst p new xs

/-- The field assignments of `update_memory`: each provided field takes
its new value (`if content is not None: memory.text = content`, and so
on), and the timestamp is unconditionally stamped with the current
time. -/
def updatedDoc (m : ConversationMemory) (content : Option String)
    (scope : Option String) (tags : Option (List String)) (now : Int) :
    ConversationMemory :=
  { m with
    text := content.getD m.text,
    scope := scope.getD m.scope,
    tags := tags.getD m.tags,
    timestamp := now }

/-- MemoryService.update_memory on an existing document: apply the
provided fields to the fetched memory, unconditionally stamp
`timestamp = now`, and write the result back over the first document
with that id.  Returns the updated document (`none` when the id does
not exist). -/
def service_update_memory (db : DB) (memory_id : String)
    (content : Option String) (scope : Option String)
    (tags : Option (List String)) (now : Int) :
    Option ConversationMemory × DB :=
  match db.conversation_history.find? (fun d => d.id == memory_id) with
  | none => (none, db)
  | some m =>
    let m2 := updatedDoc m content scope tags now
    (some m2,
      { db with conversation_history :=
          (replaceFirst (fun d => d.id == memory_id) m2
            db.conversation_history) })

/-- One incoming message of `store_conversation_history`. -/
structure BatchMsg where
  speaker : String
  text : String
  tags : List String
  timestamp : Option Int
deriving DecidableEq, Repr

/-- Identifier the mock store assigns on insert (`mock_id_{len}`). -/
def next_mock_id (n : Nat) : String := "mock_id_" ++ toString n

/-- Document built for the `k`-th message of a batch. -/
def batchDoc (conversation_id scope : String) (now : Int) (n : Nat)
    (msg : BatchMsg) : ConversationMemory :=
  { id := next_mock_id n,
    conversation_id := conversation_id,
    speaker := msg.speaker,
    text := msg.text,
    scope := scope,
    tags := msg.tags,
    timestamp := msg.timestamp.getD now }

/-- One loop iteration of `store_conversation_batch`: build the
document for the next message and insert it (`insert_one` appends and
assigns the next mock id). -/
def batchStep (cid sc : String) (now : Int) (acc : DB × List String)
    (msg : BatchMsg) : DB × List String :=
  let doc := batchDoc cid sc now acc.1.conversation_history.length msg
  ({ acc.1 with conversation_history :=
      acc.1.conversation_history ++ [doc] }, acc.2 ++ [doc.id])

/-- MemoryRepository.store_conversation_batch: resolve the conversation
id and scope, then insert each message in list order (the async
embedding job queued per insert settles outside this state).  Returns
the new state, the conversation id and the inserted ids. -/
def store_conversation_batch (db : DB) (messages : List BatchMsg)
    (conversation_id : Option String) (scope : Option String)
    (fresh_uuid : String) (now : Int) : DB × String × List String :=
  let cid := if truthyStr conversation_id then conversation_id.getD ""
    else fresh_uuid
  let sc := if truthyStr scope then scope.getD "" else "Global"
  let r := messages.foldl (batchStep cid sc now) (db, [])
  (r.1, cid, r.2)

/-- The documents a batch appends when the store already holds `n`
documents: message `k` becomes the document with mock id `n + k`. -/
def batchDocsFrom (cid sc : String) (now : Int) :
    Nat → List BatchMsg → List ConversationMemory
  | _, [] => []
  | n, msg :: rest =>
    batchDoc cid sc now n msg :: batchDocsFrom cid sc now (n + 1) rest

/-- Ascending-timestamp relation used by `sort("timestamp", 1)`. -/
def tsLE (a b : ConversationMemory) : Prop := a.timestamp ≤ b.timestamp

instance : DecidableRel tsLE :=
  fun a b => inferInstanceAs (Decidable (a.timestamp ≤ b.timestamp))

/-- MemoryRepository.get_conversation_history: filter on the
conversation id, stable sort by timestamp ascending, then the truthy
offset/limit pagination. -/
def get_conversation_history (db : DB) (conversation_id : String)
    (limit : Option Nat) (offset : Nat) : List ConversationMemory :=
  let docs := db.conversation_history.filter
    (fun d => d.conversation_id == conversation_id)
  let sorted := docs.insertionSort tsLE
  let paged := if offset ≠ 0 then sorted.drop offset else sorted
  match limit with
  | none => paged
  | some k => if k ≠ 0 then paged.take k else paged

/-! ## Concrete fixtures used by witnesses and counterexamples -/

/-- Document "a": user message "x" in scope Global at time 1. -/
def doc_a : ConversationMemory := ⟨"a", "c", "user", "x", "Global", [], 1⟩

/-- Document "b": user message "y" in scope Global at time 2. -/
def doc_b : ConversationMemory := ⟨"b", "c", "user", "y", "Global", [], 2⟩

/-- Document whose text contains the word "hello". -/
def doc_hello : ConversationMemory :=
  ⟨"a", "c", "user", "hello world", "Global", [], 1⟩

/-- Document carrying the tag "todo". -/
def doc_tagged : ConversationMemory :=
  ⟨"a", "c", "user", "x", "Global", ["todo"], 1⟩

/-- Index row for document "a" whose embedding is the zero vector. -/
def entry_a : MemoryIndexItem := ⟨"conversation_history", "a", "Global", [0, 0]⟩

/-- Store holding documents "a" and "b" and no index rows. -/
def db_pair : DB := ⟨[doc_a, doc_b], []⟩

/-- Store holding only the "hello world" document. -/
def db_hello : DB := ⟨[doc_hello], []⟩

/-- Store holding only the tagged document. -/
def db_tagged : DB := ⟨[doc_tagged], []⟩

/-- Store holding only document "a". -/
def db_single : DB := ⟨[doc_a], []⟩

/-- Store holding documents "a", "b" and the index row of "a". -/
def db_indexed : DB := ⟨[doc_a, doc_b], [entry_a]⟩

/-- The breaker of the defaults after three consecutive failures of
`store_memory` at times 0, 1 and 2. -/
def cb_tripped : CircuitBreaker :=
  record_failure (record_failure (record_failure
    (CircuitBreaker.init 3 60) "store_memory" 0) "store_memory" 1)
    "store_memory" 2

/-! ## Helper lemmas -/

theorem eraseP_no_match {α : Type} (p : α → Bool) :
    ∀ l : List α, l.countP p ≤ 1 → ∀ x ∈ l.eraseP p, p x = false := by
  intro l
  induction l with
  | nil => intro _ x hx; simp at hx
  | cons a l ih =>
    intro h x hx
    by_cases hpa : p a
    · rw [List.eraseP_cons_of_pos hpa] at hx
      rw [List.countP_cons_of_pos p _ hpa] at h
      have h0 : l.countP p = 0 := by omega
      simpa using List.countP_eq_zero.mp h0 x hx
    · rw [List.eraseP_cons_of_neg hpa] at hx
      rcases List.mem_cons.mp hx with hx | hx
      · subst hx; simpa using hpa
      · exact ih (by rwa [List.countP_cons_of_neg p _ hpa] at h) x hx

theorem foldl_eraseP_sublist (ids : List String) :
    ∀ idx : List MemoryIndexItem,
      List.Sublist
        (ids.foldl (fun idx i => idx.eraseP (fun e => e.source_id == i))
          idx) idx := by
  induction ids with
  | nil => intro idx; simp
  | cons j ids ih =>
    intro idx
    exact (ih _).trans (List.eraseP_sublist _)

theorem foldl_eraseP_clears (ids : List String) :
    ∀ idx : List MemoryIndexItem,
      (∀ j, idx.countP (fun e => e.source_id == j) ≤ 1) →
      ∀ i ∈ ids,
        ∀ e ∈ ids.foldl
            (fun idx i => idx.eraseP (fun e => e.source_id == i)) idx,
          ¬ e.source_id = i := by
  induction ids with
  | nil => intro idx _ i hi; simp at hi
  | cons j ids ih =>
    intro idx huniq i hi e he hei
    have hsub : ∀ j2,
        (idx.eraseP (fun e => e.source_id == j)).countP
          (fun e => e.source_id == j2) ≤ 1 :=
      fun j2 => le_trans
        ((List.eraseP_sublist _).countP_le _) (huniq j2)
    rcases List.mem_cons.mp hi with hi | hi
    · have hmem : e ∈ idx.eraseP (fun e => e.source_id == j) :=
        (foldl_eraseP_sublist ids _).mem he
      have hnom := eraseP_no_match (fun e => e.source_id == j) idx
        (huniq j) e hmem
      subst hi
      have hnom2 : (e.source_id == i) = false := hnom
      rw [hei] at hnom2
      simp at hnom2
    · exact ih _ hsub i hi e he hei

theorem replaceFirst_mem_of_not {α : Type} (p : α → Bool) (new : α) :
    ∀ l : List α, ∀ d ∈ l, p d = false → d ∈ replaceFirst p new l := by
  intro l
  induction l with
  | nil => intro d hd; simp at hd
  | cons x xs ih =>
    intro d hd hpd
    by_cases hpx : p x
    · rcases List.mem_cons.mp hd with hd | hd
      · subst hd; simp [hpd] at hpx
      · simp only [replaceFirst, if_pos hpx]
        exact List.mem_cons.mpr (Or.inr hd)
    · rcases List.mem_cons.mp hd with hd | hd
      · subst hd
        simp only [replaceFirst, if_neg hpx]
        exact List.mem_cons.mpr (Or.inl rfl)
      · simp only [replaceFirst, if_neg hpx]
        exact List.mem_cons.mpr (Or.inr (ih d hd hpd))

theorem find?_replaceFirst {α : Type} (p : α → Bool) (new : α)
    (hnew : p new = true) :
    ∀ l : List α, ∀ m, l.find? p = some m →
      (replaceFirst p new l).find? p = some new := by
  intro l
  induction l with
  | nil => intro m hm; simp at hm
  | cons x xs ih =>
    intro m hm
    by_cases hpx : p x
    · simp only [replaceFirst, if_pos hpx]
      exact List.find?_cons_of_pos _ hnew
    · rw [List.find?_cons_of_neg _ hpx] at hm
      simp only [replaceFirst, if_neg hpx]
      rw [List.find?_cons_of_neg _ hpx]
      exact ih m hm

/-! ## Claim theorems -/

/-- C2: for every action, the circuit breaker opens exactly when that
action's consecutive failure count reaches `failure_threshold`, stays
open for `reset_timeout` seconds from the last failure, is reset to
closed with `failure_count = 0` by the first probe after the timeout,
and is reset by any recorded success; state for different actions is
independent. -/
theorem circuit_breaker_spec (cb : CircuitBreaker) (command : String)
    (now : Rat) :
    ((record_failure cb command now).failure_count command =
        cb.failure_count command + 1 ∧
      (record_failure cb command now).last_failure_time command = now ∧
      (cb.circuit_open command = false →
        (record_failure cb command now).circuit_open command =
          decide (cb.failure_threshold ≤ cb.failure_count command + 1))) ∧
    (cb.circuit_open command = true →
      now - cb.last_failure_time command ≤ cb.reset_timeout →
      is_open cb command now = (true, cb)) ∧
    (cb.circuit_open command = true →
      cb.reset_timeout < now - cb.last_failure_time command →
      (is_open cb command now).1 = false ∧
      (is_open cb command now).2.circuit_open command = false ∧
      (is_open cb command now).2.failure_count command = 0) ∧
    (cb.circuit_open command = false →
      is_open cb command now = (false, cb)) ∧
    ((record_success cb command).failure_count command = 0 ∧
      (record_success cb command).circuit_open command = false) ∧
    (∀ c2, c2 ≠ command →
      (record_failure cb command now).failure_count c2 =
        cb.failure_count c2 ∧
      (record_failure cb command now).circuit_open c2 =
        cb.circuit_open c2 ∧
      (record_failure cb command now).last_failure_time c2 =
        cb.last_failure_time c2 ∧
      (record_success cb command).failure_count c2 = cb.failure_count c2 ∧
      (record_success cb command).circuit_open c2 = cb.circuit_open c2 ∧
      (is_open cb command now).2.failure_count c2 = cb.failure_count c2 ∧
      (is_open cb command now).2.circuit_open c2 = cb.circuit_open c2) := by
  refine ⟨⟨?_, ?_, ?_⟩, ?_, ?_, ?_, ⟨?_, ?_⟩, ?_⟩
  · simp [record_failure]
  · simp [record_failure]
  · intro hopen; simp [record_failure, hopen]
  · intro hopen hle
    simp [is_open, hopen, not_lt.mpr hle]
  · intro hopen hlt
    simp [is_open, hopen, hlt]
  · intro hclosed; simp [is_open, hclosed]
  · simp [record_success]
  · simp [record_success]
  · intro c2 hne
    by_cases hopen : cb.circuit_open command
    · by_cases hlt : cb.reset_timeout < now - cb.last_failure_time command
      · simp [record_failure, record_success, is_open, hopen, hlt, hne]
      · simp [record_failure, record_success, is_open, hopen, hlt, hne]
    · simp [record_failure, record_success, is_open, hopen, hne]

/-- Witness for C2: after three consecutive failures of
`store_memory` at times 0, 1, 2 the circuit is open, and the first
probe after the 60-second timeout (at time 100) reports closed and
zeroes the counter. -/
theorem circuit_breaker_spec_witness :
    (is_open cb_tripped "store_memory" 100).1 = false ∧
    (is_open cb_tripped "store_memory" 100).2.failure_count
      "store_memory" = 0 := by
  have h := (circuit_breaker_spec cb_tripped "store_memory" 100).2.2.1
    (by simp [cb_tripped, record_failure, CircuitBreaker.init])
    (by simp [cb_tripped, record_failure, CircuitBreaker.init]; norm_num)
  exact ⟨h.1, h.2.2⟩

/-- Counterexample for C5: in query mode `delete_memory` does not delete
the lexical matches of the query; it returns a not-implemented error and
leaves the store untouched (here a document whose text contains the
query survives). -/
theorem delete_dispatch_counterexample :
    handle_delete_memory db_hello none none none (some "hello") =
      (DeleteResponse.err "Delete by query not implemented yet",
        db_hello) := by
  decide

/-- C5 (amended): `delete_memory` dispatches on exactly one criterion
with precedence `memory_id` over `scope` over `tag` over `query`, where
query mode returns a not-implemented error and deletes nothing; a
request providing no criterion at all fails with an
invalid-request-style error instead of deleting anything. -/
theorem delete_dispatch_spec (db : DB)
    (memory_id scope tag query : Option String) :
    (truthyStr memory_id = true →
      handle_delete_memory db memory_id scope tag query =
        (DeleteResponse.ok
            (if (repo_delete_memory db (memory_id.getD "")).1 then 1 else 0)
            (if truthyStr scope then scope else none),
          (repo_delete_memory db (memory_id.getD "")).2)) ∧
    (truthyStr memory_id = false → truthyStr scope = true →
      handle_delete_memory db memory_id scope tag query =
        (DeleteResponse.ok (repo_delete_memories_by_scope db
              (scope.getD "")).1
            (if truthyStr scope then scope else none),
          (repo_delete_memories_by_scope db (scope.getD "")).2)) ∧
    (truthyStr memory_id = false → truthyStr scope = false →
      truthyStr tag = true →
      handle_delete_memory db memory_id scope tag query =
        (DeleteResponse.ok (repo_delete_memories_by_tag db
            (tag.getD "")).1 none,
          (repo_delete_memories_by_tag db (tag.getD "")).2)) ∧
    (truthyStr memory_id = false → truthyStr scope = false →
      truthyStr tag = false → truthyStr query = true →
      handle_delete_memory db memory_id scope tag query =
        (DeleteResponse.err "Delete by query not implemented yet", db)) ∧
    (truthyStr memory_id = false → truthyStr scope = false →
      truthyStr tag = false → truthyStr query = false →
      handle_delete_memory db memory_id scope tag query =
        (DeleteResponse.err "At least one deletion criterion is required",
          db)) := by
  refine ⟨?_, ?_, ?_, ?_, ?_⟩
  · intro h1
    simp [handle_delete_memory, service_delete_memory, h1]
  · intro h1 h2
    simp [handle_delete_memory, service_delete_memory, h1, h2]
  · intro h1 h2 h3
    simp [handle_delete_memory, service_delete_memory, h1, h2, h3]
  · intro h1 h2 h3 h4
    simp [handle_delete_memory, service_delete_memory, h1, h2, h3, h4]
  · intro h1 h2 h3 h4
    simp [handle_delete_memory, h1, h2, h3, h4]

/-- Witness for C5: with only a tag criterion, dispatch reaches the
tag branch on a store holding one tagged document. -/
theorem delete_dispatch_spec_witness :
    handle_delete_memory db_tagged none none (some "todo") none =
      (DeleteResponse.ok 1 none,
        { conversation_history := [], memory_index := [] }) := by
  have h := (delete_dispatch_spec db_tagged
    none none (some "todo") none).2.2.1 (by decide) (by decide) (by decide)
  rw [h]
  decide

/-- C7: deleting by a `memory_id` that does not exist (including a
second delete of an already-deleted id) returns a success response with
`deleted_count = 0` and raises no error, so delete by id is
idempotent. -/
theorem delete_unknown_id_spec (db : DB) (i : String)
    (scope tag query : Option String) :
    (truthyStr (some i) = true →
      (∀ d ∈ db.conversation_history, ¬ d.id = i) →
      (service_delete_memory db (some i) scope tag query).1 =
        DeleteResponse.ok 0 (if truthyStr scope then scope else none)) ∧
    (truthyStr (some i) = true →
      db.conversation_history.countP (fun d => d.id == i) ≤ 1 →
      (service_delete_memory
          (service_delete_memory db (some i) none none none).2
          (some i) none none none).1 = DeleteResponse.ok 0 none) := by
  constructor
  · intro htruthy habsent
    have hany : db.conversation_history.any (fun d => d.id == i) = false := by
      simp only [List.any_eq_false]
      intro d hd
      simpa using habsent d hd
    simp [service_delete_memory, htruthy, repo_delete_memory, hany]
  · intro htruthy hcount
    have herase := eraseP_no_match (fun d => d.id == i)
      db.conversation_history hcount
    have hany2 : (db.conversation_history.eraseP
        (fun d => d.id == i)).any (fun d => d.id == i) = false :=
      List.any_eq_false.mpr (by
        intro d hd
        simp only [herase d hd]
        exact Bool.false_ne_true)
    simp [service_delete_memory, repo_delete_memory, htruthy, hany2]

/-- Witness for C7: deleting the id "zz", absent from a one-document
store, answers `deleted_count = 0`, and so does a second delete of the
existing id "a" right after the first one removed it. -/
theorem delete_unknown_id_spec_witness :
    (service_delete_memory db_single (some "zz") none none none).1 =
      DeleteResponse.ok 0 none ∧
    (service_delete_memory
        (service_delete_memory db_single (some "a") none none none).2
        (some "a") none none none).1 = DeleteResponse.ok 0 none := by
  constructor
  · have h := (delete_unknown_id_spec db_single "zz" none none none).1
      (by decide) (by decide)
    simpa using h
  · exact (delete_unknown_id_spec db_single "a" none none none).2
      (by decide) (by decide)

/-- C10: on an existing memory, `update_memory` unconditionally
overwrites the timestamp with the current time, even when the request
supplies no new content; the supplied fields take their new values,
every other field of the document keeps its old value, and documents
with a different id are untouched. -/
theorem update_memory_spec (db : DB) (memory_id : String)
    (content : Option String) (scope : Option String)
    (tags : Option (List String)) (now : Int) (m : ConversationMemory)
    (hfind : db.conversation_history.find? (fun d => d.id == memory_id) =
      some m) :
    (service_update_memory db memory_id content scope tags now).1 =
      some (updatedDoc m content scope tags now) ∧
    (updatedDoc m content scope tags now).timestamp = now ∧
    (updatedDoc m content scope tags now).text = content.getD m.text ∧
    (updatedDoc m content scope tags now).scope = scope.getD m.scope ∧
    (updatedDoc m content scope tags now).tags = tags.getD m.tags ∧
    (updatedDoc m content scope tags now).id = m.id ∧
    (updatedDoc m content scope tags now).conversation_id =
      m.conversation_id ∧
    (updatedDoc m content scope tags now).speaker = m.speaker ∧
    ((service_update_memory db memory_id content scope tags
        now).2.conversation_history.find? (fun d => d.id == memory_id)) =
      some (updatedDoc m content scope tags now) ∧
    (∀ d ∈ db.conversation_history, ¬ d.id = memory_id →
      d ∈ (service_update_memory db memory_id content scope tags
        now).2.conversation_history) := by
  have hpm0 := List.find?_some hfind
  have hpm : (m.id == memory_id) = true := hpm0
  have hpnew : ((updatedDoc m content scope tags now).id == memory_id) =
      true := hpm
  refine ⟨?_, rfl, rfl, rfl, rfl, rfl, rfl, rfl, ?_, ?_⟩
  · simp [service_update_memory, hfind]
  · simp only [service_update_memory, hfind]
    exact find?_replaceFirst (fun d => d.id == memory_id)
      (updatedDoc m content scope tags now) hpnew
      db.conversation_history m hfind
  · intro d hd hne
    simp only [service_update_memory, hfind]
    exact replaceFirst_mem_of_not (fun d => d.id == memory_id)
      (updatedDoc m content scope tags now)
      db.conversation_history d hd (by simpa using hne)

/-- Witness for C10: updating only the tags of memory "a" at time 9
stamps timestamp 9 and keeps text, scope, speaker and the sibling
document "b" unchanged. -/
theorem update_memory_spec_witness :
    (service_update_memory db_pair "a" none none (some ["t"]) 9).1 =
      some ⟨"a", "c", "user", "x", "Global", ["t"], 9⟩ := by
  rw [(update_memory_spec db_pair "a" none none (some ["t"]) 9
    doc_a (by decide)).1]
  decide

theorem cache_lookup_none_forall {c : Cache} {t : String}
    (h : cache_lookup c t = none) : ∀ pr ∈ c, (pr.1 == t) = false := by
  intro pr hpr
  have hf : c.find? (fun p => p.1 == t) = none :=
    Option.map_eq_none'.mp h
  have := List.find?_eq_none.mp hf pr hpr
  simpa using this

theorem cache_lookup_append_single {c : Cache} {t : String}
    (v : List Rat) (h : cache_lookup c t = none) :
    cache_lookup (c ++ [(t, v)]) t = some v := by
  have hf : c.find? (fun p => p.1 == t) = none :=
    Option.map_eq_none'.mp h
  unfold cache_lookup
  rw [List.find?_append, hf, Option.none_or]
  simp

theorem cache_lookup_none_tail {x : String × List Rat} {c : Cache}
    {t : String} (h : cache_lookup (x :: c) t = none) :
    cache_lookup c t = none := by
  have hforall := cache_lookup_none_forall h
  unfold cache_lookup
  rw [List.find?_eq_none.mpr (by
    intro pr hpr
    simp [hforall pr (List.mem_cons.mpr (Or.inr hpr))])]
  rfl

/-- C8: synchronous embedding generation is total and never raises:
empty text yields a zero vector of the configured dimension without
consulting the model, a model failure yields a zero vector instead of
an exception, and in neither case (nor when inserting would have
raised on a zero-capacity cache) is a zero vector inserted into the
cache. -/
theorem generate_embedding_error_spec
    (model model2 : String → Option (List Rat)) (es cs : Nat)
    (c : Cache) (text : String) :
    (generate_embedding model es cs c "" = (List.replicate es 0, c)) ∧
    (generate_embedding model es cs c "" =
      generate_embedding model2 es cs c "") ∧
    (cache_lookup c text = none → model text = none →
      generate_embedding model es cs c text = (List.replicate es 0, c)) ∧
    (cache_lookup c text = none → ∀ v, model text = some v →
      cache_insert_evict cs c text v = none →
      generate_embedding model es cs c text = (List.replicate es 0, c)) := by
  refine ⟨rfl, rfl, ?_, ?_⟩
  · intro hmiss hfail
    by_cases hempty : text == ""
    · simp [generate_embedding, hempty]
    · simp [generate_embedding, hempty, hmiss, hfail]
  · intro hmiss v hv hins
    by_cases hempty : text == ""
    · simp [generate_embedding, hempty]
    · simp [generate_embedding, hempty, hmiss, hv, hins]

/-- Witness for C8: a failing model on a novel text returns the zero
vector of the configured dimension and leaves the cache untouched. -/
theorem generate_embedding_error_spec_witness :
    generate_embedding (fun _ => none) 3 1000 [] "hi" = ([0, 0, 0], []) := by
  have h := (generate_embedding_error_spec (fun _ => none) (fun _ => none)
    3 1000 [] "hi").2.2.1 (by decide) (by decide)
  rw [h]
  decide

/-- Counterexample for C4: after a synchronous `generate` of the empty
text the returned zero vector is not in the cache, so a cache lookup of
that text does not yield the returned vector. -/
theorem embedding_cache_counterexample :
    (generate_embedding (fun _ => some [1]) 3 1000 [] "").1 =
      List.replicate 3 0 ∧
    cache_lookup (generate_embedding (fun _ => some [1]) 3 1000 [] "").2
      "" = none := by
  decide

/-- C4 (amended): for every nonempty text whose generation succeeds
(on a cache of positive capacity), a cache lookup right after
`generate` yields exactly the returned vector; a hit returns the cached
vector and promotes its entry to most-recently-used position; and the
number of cached entries never exceeds the configured capacity. -/
theorem generate_embedding_cache_spec
    (model : String → Option (List Rat)) (es cs : Nat) (c : Cache)
    (text : String) (v : List Rat) :
    (text ≠ "" → cache_lookup c text = some v →
      generate_embedding model es cs c text =
        (v, cache_remove c text ++ [(text, v)])) ∧
    (text ≠ "" → cache_lookup c text = none → model text = some v →
      1 ≤ cs →
      (generate_embedding model es cs c text).1 = v ∧
      cache_lookup (generate_embedding model es cs c text).2 text =
        some v) ∧
    (c.length ≤ cs →
      (generate_embedding model es cs c text).2.length ≤ cs) := by
  refine ⟨?_, ?_, ?_⟩
  · intro hne hhit
    have hne2 : (text == "") = false := by simpa using hne
    simp [generate_embedding, hne2, hhit]
  · intro hne hmiss hv hcs
    have hne2 : (text == "") = false := by simpa using hne
    by_cases hfull : cs ≤ c.length
    · cases c with
      | nil =>
        simp at hfull
        omega
      | cons x rest =>
        have hfull2 : cs ≤ rest.length + 1 := by simpa using hfull
        have hins : cache_insert_evict cs (x :: rest) text v =
            some (rest ++ [(text, v)]) := by
          simp [cache_insert_evict, hfull2]
        have hlook : cache_lookup (rest ++ [(text, v)]) text = some v :=
          cache_lookup_append_single v (cache_lookup_none_tail hmiss)
        simp [generate_embedding, hne2, hmiss, hv, hins, hlook]
    · have hins : cache_insert_evict cs c text v =
          some (c ++ [(text, v)]) := by
        simp [cache_insert_evict, hfull]
      have hlook : cache_lookup (c ++ [(text, v)]) text = some v :=
        cache_lookup_append_single v hmiss
      simp [generate_embedding, hne2, hmiss, hv, hins, hlook]
  · intro hlen
    by_cases hempty : text == ""
    · simpa [generate_embedding, hempty] using hlen
    · cases hhit : cache_lookup c text with
      | some w =>
        obtain ⟨pr, hf, hw⟩ : ∃ pr,
            c.find? (fun p => p.1 == text) = some pr ∧ pr.2 = w := by
          cases hf : c.find? (fun p => p.1 == text) with
          | none => simp [cache_lookup, hf] at hhit
          | some pr =>
            exact ⟨pr, rfl, by simpa [cache_lookup, hf] using hhit⟩
        have hkey0 := List.find?_some hf
        have hkey : (pr.1 == text) = true := hkey0
        have hmem : pr ∈ c := List.mem_of_find?_eq_some hf
        have hlenerase :
            (c.eraseP (fun p => p.1 == text)).length + 1 = c.length :=
          List.length_eraseP_add_one hmem hkey
        simp only [generate_embedding, hempty, Bool.false_eq_true,
          if_false, hhit]
        simp only [cache_remove, List.length_append, List.length_cons,
          List.length_nil]
        omega
      | none =>
        cases hv : model text with
        | none => simpa [generate_embedding, hempty, hhit, hv] using hlen
        | some w =>
          cases hins : cache_insert_evict cs c text w with
          | none =>
            simpa [generate_embedding, hempty, hhit, hv, hins] using hlen
          | some c2 =>
            have hc2 : c2.length ≤ cs := by
              by_cases hfull : cs ≤ c.length
              · cases c with
                | nil =>
                  simp at hfull
                  simp [cache_insert_evict, hfull] at hins
                | cons x rest =>
                  have hfull2 : cs ≤ rest.length + 1 := by
                    simpa using hfull
                  have hstep : cache_insert_evict cs (x :: rest) text w =
                      some (rest ++ [(text, w)]) := by
                    simp [cache_insert_evict, hfull2]
                  rw [hstep] at hins
                  have hc2eq : rest ++ [(text, w)] = c2 :=
                    Option.some.inj hins
                  subst hc2eq
                  simp only [List.length_cons] at hfull hlen
                  simp only [List.length_append, List.length_cons,
                    List.length_nil]
                  omega
              · have hstep : cache_insert_evict cs c text w =
                    some (c ++ [(text, w)]) := by
                  simp [cache_insert_evict, hfull]
                rw [hstep] at hins
                have hc2eq : c ++ [(text, w)] = c2 := Option.some.inj hins
                subst hc2eq
                simp only [List.length_append, List.length_cons,
                  List.length_nil]
                omega
            simpa [generate_embedding, hempty, hhit, hv, hins] using hc2

/-- Witness for C4 (amended): generating the novel text "hi" with a
succeeding model stores its vector, and a lookup right after yields
exactly that vector; the one-entry cache respects the size bound. -/
theorem generate_embedding_cache_spec_witness :
    ((generate_embedding (fun _ => some [1]) 3 1000 [] "hi").1 = [1] ∧
      cache_lookup (generate_embedding (fun _ => some [1]) 3 1000 []
        "hi").2 "hi" = some [1]) ∧
    (generate_embedding (fun _ => some [1]) 3 1000 [] "hi").2.length ≤
      1000 := by
  constructor
  · exact (generate_embedding_cache_spec (fun _ => some [1]) 3 1000 []
      "hi" [1]).2.1 (by decide) (by decide) (by decide) (by decide)
  · exact (generate_embedding_cache_spec (fun _ => some [1]) 3 1000 []
      "hi" [1]).2.2 (by decide)

/-- C3: after a delete of memory `i` completes, and after any mass
delete by scope or by tag completes, no vector index document
references a deleted document as `source_id`; the hypotheses are the
data-model invariants (at most one index row per source id, and index
rows carry their source document's scope). -/
theorem delete_cascade_spec (db : DB) (i s tg : String) :
    (db.memory_index.countP (fun e => e.source_id == i) ≤ 1 →
      ∀ e ∈ (repo_delete_memory db i).2.memory_index,
        ¬ e.source_id = i) ∧
    (db.conversation_history.countP (fun d => d.id == i) ≤ 1 →
      ∀ d ∈ (repo_delete_memory db i).2.conversation_history,
        ¬ d.id = i) ∧
    ((∀ e ∈ db.memory_index, ∀ d ∈ db.conversation_history,
        e.source_id = d.id → e.scope = d.scope) →
      (∀ d2 ∈ (repo_delete_memories_by_scope db
          s).2.conversation_history, ¬ d2.scope = s) ∧
      (∀ e ∈ (repo_delete_memories_by_scope db s).2.memory_index,
        ∀ d ∈ db.conversation_history, d.scope = s →
          ¬ e.source_id = d.id)) ∧
    ((∀ j, db.memory_index.countP (fun e => e.source_id == j) ≤ 1) →
      (∀ d2 ∈ (repo_delete_memories_by_tag db
          tg).2.conversation_history, ¬ tg ∈ d2.tags) ∧
      (∀ e ∈ (repo_delete_memories_by_tag db tg).2.memory_index,
        ∀ d ∈ db.conversation_history, tg ∈ d.tags →
          ¬ e.source_id = d.id)) := by
  refine ⟨?_, ?_, ?_, ?_⟩
  · intro h e he hei
    have he2 : e ∈ db.memory_index.eraseP
        (fun e => e.source_id == i) := he
    have hno := eraseP_no_match (fun e => e.source_id == i)
      db.memory_index h e he2
    have hno2 : (e.source_id == i) = false := hno
    rw [hei] at hno2
    simp at hno2
  · intro h d hd hdi
    have hd2 : d ∈ db.conversation_history.eraseP
        (fun d => d.id == i) := hd
    have hno := eraseP_no_match (fun d => d.id == i)
      db.conversation_history h d hd2
    have hno2 : (d.id == i) = false := hno
    rw [hdi] at hno2
    simp at hno2
  · intro hconsist
    constructor
    · intro d2 hd2 hscope
      have hd3 : d2 ∈ db.conversation_history.filter
          (fun d => !(d.scope == s)) := hd2
      have := (List.mem_filter.mp hd3).2
      rw [hscope] at this
      simp at this
    · intro e he d hd hscope hei
      have he2 : e ∈ db.memory_index.filter
          (fun e => !(e.scope == s)) := he
      obtain ⟨he3, he4⟩ := List.mem_filter.mp he2
      have hes : e.scope = d.scope := hconsist e he3 d hd hei
      rw [hes, hscope] at he4
      simp at he4
  · intro huniq
    constructor
    · intro d2 hd2 htag
      have hd3 : d2 ∈ db.conversation_history.filter
          (fun d => !(d.tags.contains tg)) := hd2
      have := (List.mem_filter.mp hd3).2
      simp at this
      exact this htag
    · intro e he d hd htag hei
      have hid : d.id ∈ (db.conversation_history.filter
          (fun d => d.tags.contains tg)).map (fun d => d.id) := by
        refine List.mem_map.mpr ⟨d, ?_, rfl⟩
        refine List.mem_filter.mpr ⟨hd, ?_⟩
        simpa using htag
      exact foldl_eraseP_clears _ db.memory_index huniq d.id hid e he hei

/-- Witness for C3: the index row of document "a" is gone after
deleting "a" from a store that satisfies the invariants. -/
theorem delete_cascade_spec_witness :
    ¬ entry_a ∈ (repo_delete_memory db_indexed "a").2.memory_index := by
  intro hmem
  exact (delete_cascade_spec db_indexed "a" "Global" "t").1 (by decide)
    entry_a hmem (by decide)

theorem foldl_batchStep_history (cid sc : String) (now : Int) :
    ∀ (messages : List BatchMsg) (db : DB) (acc : List String),
      ((messages.foldl (batchStep cid sc now) (db, acc)).1
          ).conversation_history =
        db.conversation_history ++
          batchDocsFrom cid sc now db.conversation_history.length
            messages := by
  intro messages
  induction messages with
  | nil => intro db acc; simp [batchDocsFrom]
  | cons m rest ih =>
    intro db acc
    rw [List.foldl_cons]
    have hstep : batchStep cid sc now (db, acc) m =
        ({ db with conversation_history := db.conversation_history ++
            [batchDoc cid sc now db.conversation_history.length m] },
          acc ++
            [(batchDoc cid sc now db.conversation_history.length m).id]) :=
      rfl
    rw [hstep, ih]
    simp [batchDocsFrom, List.length_append]

theorem batchDocsFrom_conversation_id (cid sc : String) (now : Int) :
    ∀ (messages : List BatchMsg) (n : Nat),
      ∀ d ∈ batchDocsFrom cid sc now n messages,
        d.conversation_id = cid := by
  intro messages
  induction messages with
  | nil => intro n d hd; simp [batchDocsFrom] at hd
  | cons m rest ih =>
    intro n d hd
    rcases List.mem_cons.mp hd with hd | hd
    · subst hd; rfl
    · exact ih (n + 1) d hd

theorem batchDocsFrom_content (cid sc : String) (now : Int) :
    ∀ (messages : List BatchMsg) (n : Nat),
      (batchDocsFrom cid sc now n messages).map
          (fun d => (d.speaker, d.text, d.tags, d.timestamp)) =
        messages.map
          (fun m => (m.speaker, m.text, m.tags, m.timestamp.getD now)) := by
  intro messages
  induction messages with
  | nil => intro n; rfl
  | cons m rest ih =>
    intro n
    simp [batchDocsFrom, batchDoc, ih (n + 1)]

theorem batchDocsFrom_timestamps (cid sc : String) (now : Int) :
    ∀ (messages : List BatchMsg) (n : Nat),
      (batchDocsFrom cid sc now n messages).map (fun d => d.timestamp) =
        messages.map (fun m => m.timestamp.getD now) := by
  intro messages
  induction messages with
  | nil => intro n; rfl
  | cons m rest ih =>
    intro n
    simp [batchDocsFrom, batchDoc, ih (n + 1)]

/-- Counterexample for C6: a batch whose two messages carry
timestamps 2 then 1 comes back from `get_conversation_history` in the
opposite order, because history is re-sorted by timestamp ascending. -/
theorem store_batch_history_counterexample :
    (get_conversation_history
        (store_conversation_batch ⟨[], []⟩
          [⟨"user", "first", [], some 2⟩, ⟨"user", "second", [], some 1⟩]
          (some "c") (some "S") "u" 9).1 "c" none 0).map
      (fun d => d.text) = ["second", "first"] := by
  decide

/-- C6 (amended): storing a batch under a fresh conversation id whose
effective timestamps are non-decreasing in list order, then reading the
conversation history of that id, returns the same messages (speaker,
text, tags, timestamp) in the same order, insertions having occurred in
list order. -/
theorem store_batch_history_roundtrip (db : DB)
    (messages : List BatchMsg) (cid : String) (scope : Option String)
    (fresh : String) (now : Int) (hcid : ¬ cid = "")
    (hfresh : ∀ d ∈ db.conversation_history, ¬ d.conversation_id = cid)
    (hchain : List.Chain' (· ≤ ·)
      (messages.map (fun m => m.timestamp.getD now))) :
    (get_conversation_history
        (store_conversation_batch db messages (some cid) scope fresh
          now).1 cid none 0).map
      (fun d => (d.speaker, d.text, d.tags, d.timestamp)) =
    messages.map
      (fun m => (m.speaker, m.text, m.tags, m.timestamp.getD now)) := by
  have htruthy : truthyStr (some cid) = true := by
    simp [truthyStr, hcid]
  have hstore : (store_conversation_batch db messages (some cid) scope
      fresh now).1.conversation_history =
      db.conversation_history ++
        batchDocsFrom cid
          (if truthyStr scope then scope.getD "" else "Global") now
          db.conversation_history.length messages := by
    simp only [store_conversation_batch, htruthy, if_true,
      Option.getD_some]
    exact foldl_batchStep_history cid _ now messages db []
  have hfilter : ((store_conversation_batch db messages (some cid) scope
      fresh now).1.conversation_history).filter
        (fun d => d.conversation_id == cid) =
      batchDocsFrom cid
        (if truthyStr scope then scope.getD "" else "Global") now
        db.conversation_history.length messages := by
    rw [hstore, List.filter_append]
    rw [List.filter_eq_nil_iff.mpr (by
      intro d hd
      simpa using hfresh d hd)]
    rw [List.filter_eq_self.mpr (by
      intro d hd
      simpa using batchDocsFrom_conversation_id cid _ now messages _
        d hd)]
    simp
  have hpairwise : List.Sorted tsLE
      (batchDocsFrom cid
        (if truthyStr scope then scope.getD "" else "Global") now
        db.conversation_history.length messages) := by
    have h1 : List.Pairwise (· ≤ ·)
        ((batchDocsFrom cid
          (if truthyStr scope then scope.getD "" else "Global") now
          db.conversation_history.length messages).map
            (fun d => d.timestamp)) := by
      rw [batchDocsFrom_timestamps]
      exact List.chain'_iff_pairwise.mp hchain
    have h2 := List.pairwise_map.mp h1
    exact h2.imp (fun hab => hab)
  have hsorted := List.Sorted.insertionSort_eq hpairwise
  simp only [get_conversation_history, hfilter, hsorted]
  simp [batchDocsFrom_content]

/-- Witness for C6 (amended): a two-message batch with non-decreasing
timestamps round-trips through the conversation history unchanged. -/
theorem store_batch_history_roundtrip_witness :
    (get_conversation_history
        (store_conversation_batch ⟨[], []⟩
          [⟨"user", "hi", [], some 1⟩, ⟨"assistant", "hello", [], some 2⟩]
          (some "c") (some "S") "u" 9).1 "c" none 0).map
      (fun d => (d.speaker, d.text, d.tags, d.timestamp)) =
    [("user", "hi", [], 1), ("assistant", "hello", [], 2)] := by
  have h := store_batch_history_roundtrip ⟨[], []⟩
    [⟨"user", "hi", [], some 1⟩, ⟨"assistant", "hello", [], some 2⟩]
    "c" (some "S") "u" 9 (by decide) (by simp) (by simp [List.chain'_cons])
  rw [h]
  decide

theorem dedupFirst_cons_mem {seen : List String}
    {p : ConversationMemory × Rat} {ps : List (ConversationMemory × Rat)}
    (h : p.1.id ∈ seen) :
    dedupFirst seen (p :: ps) = dedupFirst seen ps := by
  simp [dedupFirst, h]

theorem dedupFirst_cons_not_mem {seen : List String}
    {p : ConversationMemory × Rat} {ps : List (ConversationMemory × Rat)}
    (h : ¬ p.1.id ∈ seen) :
    dedupFirst seen (p :: ps) =
      p :: dedupFirst (p.1.id :: seen) ps := by
  simp [dedupFirst, h]

theorem dedupFirst_filter_seen (ids : List String)
    (B : List (ConversationMemory × Rat)) :
    ∀ seen : List String, (∀ i ∈ ids, i ∈ seen) →
      dedupFirst seen (B.filter (fun r => decide (r.1.id ∉ ids))) =
        dedupFirst seen B := by
  induction B with
  | nil => intro seen _; rfl
  | cons b B ih =>
    intro seen h
    by_cases hb : b.1.id ∈ ids
    · have hstep : (b :: B).filter (fun r => decide (r.1.id ∉ ids)) =
          B.filter (fun r => decide (r.1.id ∉ ids)) := by
        rw [List.filter_cons]
        simp [hb]
      rw [hstep, ih seen h, dedupFirst_cons_mem (h _ hb)]
    · have hstep : (b :: B).filter (fun r => decide (r.1.id ∉ ids)) =
          b :: B.filter (fun r => decide (r.1.id ∉ ids)) := by
        rw [List.filter_cons]
        simp [hb]
      rw [hstep]
      by_cases hseen : b.1.id ∈ seen
      · rw [dedupFirst_cons_mem hseen, dedupFirst_cons_mem hseen,
          ih seen h]
      · rw [dedupFirst_cons_not_mem hseen, dedupFirst_cons_not_mem hseen,
          ih (b.1.id :: seen)
            (fun i hi => List.mem_cons.mpr (Or.inr (h i hi)))]

theorem dedupFirst_append_filter
    (B : List (ConversationMemory × Rat)) :
    ∀ (A : List (ConversationMemory × Rat)) (seen ids : List String),
      (∀ i ∈ ids, i ∈ seen ∨ i ∈ A.map (fun p => p.1.id)) →
      dedupFirst seen (A ++ B.filter (fun r => decide (r.1.id ∉ ids))) =
        dedupFirst seen (A ++ B) := by
  intro A
  induction A with
  | nil =>
    intro seen ids h
    simp only [List.nil_append]
    refine dedupFirst_filter_seen ids B seen ?_
    intro i hi
    exact (h i hi).resolve_right (by simp)
  | cons a A ih =>
    intro seen ids h
    simp only [List.cons_append]
    by_cases hseen : a.1.id ∈ seen
    · rw [dedupFirst_cons_mem hseen, dedupFirst_cons_mem hseen]
      refine ih seen ids ?_
      intro i hi
      rcases h i hi with hl | hr
      · exact Or.inl hl
      · rcases List.mem_map.mp hr with ⟨p, hp, hpe⟩
        rcases List.mem_cons.mp hp with hp | hp
        · subst hp
          exact Or.inl (hpe ▸ hseen)
        · exact Or.inr (List.mem_map.mpr ⟨p, hp, hpe⟩)
    · rw [dedupFirst_cons_not_mem hseen, dedupFirst_cons_not_mem hseen]
      congr 1
      refine ih (a.1.id :: seen) ids ?_
      intro i hi
      rcases h i hi with hl | hr
      · exact Or.inl (List.mem_cons.mpr (Or.inr hl))
      · rcases List.mem_map.mp hr with ⟨p, hp, hpe⟩
        rcases List.mem_cons.mp hp with hp | hp
        · subst hp
          exact Or.inl (List.mem_cons.mpr (Or.inl hpe.symm))
        · exact Or.inr (List.mem_map.mpr ⟨p, hp, hpe⟩)

/-- Counterexample for C1: on a store where two documents match the
query lexically (and the vector index is empty) hybrid search returns
both with the tied score 1.0 in store order, which is ascending
timestamps -- not the claimed timestamp-descending tie order. -/
theorem hybrid_search_counterexample :
    perform_hybrid_search (fun x => x) (fun _ => []) (fun _ _ => true)
        db_pair "q" none 5 (3 / 10) = [(doc_a, 1), (doc_b, 1)] ∧
    doc_a.timestamp < doc_b.timestamp ∧ ¬ doc_a.id = doc_b.id := by
  refine ⟨by decide, by decide, by decide⟩

/-- C1 (amended): hybrid search returns the union of the lexical
results (each with score 1.0) and the semantic results, deduplicated by
document id preferring the lexical entry, stably sorted by score
descending and truncated to top-k; results with equal scores keep the
combined order (lexical results in store order before semantic
results), not a timestamp/id order. -/
theorem hybrid_search_matches_spec (sqrt : Rat → Rat)
    (embGen : String → List Rat) (textMatch : String → String → Bool)
    (db : DB) (query_text : String) (scope : Option String)
    (top_k : Nat) (similarity_threshold : Rat) :
    perform_hybrid_search sqrt embGen textMatch db query_text scope
        top_k similarity_threshold =
      hybrid_search_spec sqrt embGen textMatch db query_text scope
        top_k similarity_threshold := by
  simp only [perform_hybrid_search, hybrid_search_spec]
  rw [dedupFirst_append_filter
    (get_conversations_by_semantic_search sqrt embGen db query_text
      scope top_k similarity_threshold)
    ((get_conversations_by_text_search textMatch db query_text
      scope).map (fun m => (m, (1 : Rat))))
    []
    (((get_conversations_by_text_search textMatch db query_text
      scope).map (fun m => (m, (1 : Rat)))).map (fun k => k.1.id))
    (fun i hi => Or.inr hi)]

/-! ## Claim C9 -/

theorem mem_find_most_similar (sqrt : Rat → Rat) (q : List Rat)
    (cands : List (List Rat)) (k : Nat) (th : Rat) :
    ∀ i ∈ find_most_similar sqrt q cands k th,
      th ≤ compute_similarity sqrt q (cands.getD i []) := by
  intro i hi
  by_cases hempty : cands.isEmpty
  · simp [find_most_similar, hempty] at hi
  · have hi2 : i ∈ ((((compute_similarities sqrt q
        cands).enum.filter (fun p => decide (th ≤ p.2))).insertionSort
        scoreGE).take k).map (fun p => p.1) := by
      simpa [find_most_similar, hempty] using hi
    obtain ⟨p, hp, hpi⟩ := List.mem_map.mp hi2
    have hp2 := List.take_subset k _ hp
    have hp3 := (List.mem_insertionSort scoreGE).mp hp2
    obtain ⟨hp4, hp5⟩ := List.mem_filter.mp hp3
    have hth : th ≤ p.2 := by simpa using hp5
    have hget : (compute_similarities sqrt q cands)[p.1]? = some p.2 :=
      List.mem_enum_iff_getElem?.mp hp4
    rw [compute_similarities, List.getElem?_map] at hget
    cases hc : cands[p.1]? with
    | none =>
      rw [hc] at hget
      simp at hget
    | some cand =>
      rw [hc] at hget
      have heq : compute_similarity sqrt q cand = p.2 := by
        simpa using hget
      have hgd : cands.getD p.1 [] = cand := by
        rw [List.getD_eq_getElem?_getD, hc]
        rfl
      subst hpi
      rw [hgd, heq]
      exact hth

/-- C9: `compute_similarity` is total; when either argument has zero
norm it returns exactly 0, so the cosine division is only performed
with a nonzero divisor; consequently a candidate whose stored
embedding has zero squared norm (in particular the zero vector) never
meets the default 0.3 semantic-search threshold, for any square-root
function with `sqrt 0 = 0`. -/
theorem compute_similarity_total_spec (sqrt : Rat → Rat)
    (v1 v2 q : List Rat) (cands : List (List Rat)) (k i : Nat) :
    (sqrt (normSq v1) = 0 ∨ sqrt (normSq v2) = 0 →
      compute_similarity sqrt v1 v2 = 0) ∧
    (¬ sqrt (normSq v1) = 0 → ¬ sqrt (normSq v2) = 0 →
      compute_similarity sqrt v1 v2 =
        dotProduct v1 v2 / (sqrt (normSq v1) * sqrt (normSq v2)) ∧
      ¬ sqrt (normSq v1) * sqrt (normSq v2) = 0) ∧
    (sqrt 0 = 0 → normSq (cands.getD i []) = 0 →
      ¬ i ∈ find_most_similar sqrt q cands k (3 / 10)) := by
  refine ⟨?_, ?_, ?_⟩
  · intro h
    simp only [compute_similarity]
    rw [if_pos h]
  · intro h1 h2
    constructor
    · simp only [compute_similarity]
      rw [if_neg (not_or.mpr ⟨h1, h2⟩)]
    · exact mul_ne_zero h1 h2
  · intro hs h0 hmem
    have hle := mem_find_most_similar sqrt q cands k (3 / 10) i hmem
    have hv : compute_similarity sqrt q (cands.getD i []) = 0 := by
      simp only [compute_similarity]
      rw [h0, hs]
      rw [if_pos (Or.inr rfl)]
    rw [hv] at hle
    norm_num at hle

/-- Witness for C9: with the identity as square root, the zero vector
has similarity exactly 0 with a unit vector, and the zero-embedding
candidate at index 0 is excluded from the semantic top-k at the
default threshold 0.3. -/
theorem compute_similarity_total_spec_witness :
    compute_similarity (fun x => x) [0, 0] [1, 0] = 0 ∧
    ¬ 0 ∈ find_most_similar (fun x => x) [1, 0] [[0, 0], [1, 0]] 5
      (3 / 10) := by
  constructor
  · exact (compute_similarity_total_spec (fun x => x) [0, 0] [1, 0]
      [] [] 5 0).1 (Or.inl (by simp [normSq, dotProduct]))
  · exact (compute_similarity_total_spec (fun x => x) [] [] [1, 0]
      [[0, 0], [1, 0]] 5 0).2.2 (by simp)
      (by simp [normSq, dotProduct])

end InfiniteMemory
